import Mathlib

/-!
Verification of the habit-tracker core (models.py, analytics.py and the
startup fail-sweep of the main module) against its specification.

The embedding mirrors the Python source:
* `PyDateTime` models `datetime.datetime` values field by field; comparison
  is the lexicographic comparison of the field tuple, exactly as in Python.
* `datetime.replace` validates the resulting date, so the date-arithmetic
  operations return `Except PyError PyDateTime`; the error constructors stand
  for the two `ValueError`s the source can raise.
* Mutating methods become functions from the old record to the new one;
  a Python exception thrown mid-method is modelled as `Except.error` carrying
  the partially mutated record, matching the object state at the raise site.
* Python `int`/`float` experience values are modelled as `ℚ` (all values the
  program produces are dyadic rationals, which floats represent exactly).
-/

namespace HabitApp

/-- A `datetime.datetime` value: the fields the program reads and writes. -/
structure PyDateTime where
  year : Nat
  month : Nat
  day : Nat
  hour : Nat
  minute : Nat
  second : Nat
  microsecond : Nat
deriving DecidableEq

/-- Python `a < b` on datetimes: lexicographic comparison of the field tuple. -/
def PyDateTime.ltb (a b : PyDateTime) : Bool :=
  decide (a.year < b.year ∨ (a.year = b.year ∧
    (a.month < b.month ∨ (a.month = b.month ∧
      (a.day < b.day ∨ (a.day = b.day ∧
        (a.hour < b.hour ∨ (a.hour = b.hour ∧
          (a.minute < b.minute ∨ (a.minute = b.minute ∧
            (a.second < b.second ∨ (a.second = b.second ∧
              a.microsecond < b.microsecond))))))))))))

/-- Python `a <= b` on datetimes (total order: `a <= b` iff not `b < a`). -/
def PyDateTime.leb (a b : PyDateTime) : Bool :=
  !(PyDateTime.ltb b a)

/-- Gregorian leap-year rule used by `datetime`. -/
def isLeapYear (y : Nat) : Bool :=
  (y % 4 == 0 && y % 100 != 0) || (y % 400 == 0)

/-- Number of days of month `m` of year `y` (months numbered 1-12). -/
def daysInMonth (y m : Nat) : Nat :=
  if m = 2 then (if isLeapYear y then 29 else 28)
  else if m = 4 ∨ m = 6 ∨ m = 9 ∨ m = 11 then 30
  else 31

def daysInMonth_le (y m : Nat) : daysInMonth y m ≤ 31 := by
  unfold daysInMonth
  split_ifs <;> simp

def le_daysInMonth (y m : Nat) : 28 ≤ daysInMonth y m := by
  unfold daysInMonth
  split_ifs <;> simp

/-- Advance the date part by one calendar day (time-of-day untouched);
together with `addDays` this models `date + timedelta(days=n)`. -/
def PyDateTime.nextDay (d : PyDateTime) : PyDateTime :=
  if d.day < daysInMonth d.year d.month then { d with day := d.day + 1 }
  else if d.month < 12 then { d with month := d.month + 1, day := 1 }
  else { d with year := d.year + 1, month := 1, day := 1 }

/-- `date + timedelta(days=n)`, as `n` calendar-day steps. -/
def PyDateTime.addDays (d : PyDateTime) : Nat → PyDateTime
  | 0 => d
  | n + 1 => (d.nextDay).addDays n

/-- The date invariant every Python `datetime` object satisfies. -/
def ValidDate (d : PyDateTime) : Prop :=
  1 ≤ d.month ∧ d.month ≤ 12 ∧ 1 ≤ d.day ∧ d.day ≤ daysInMonth d.year d.month

instance (d : PyDateTime) : Decidable (ValidDate d) := by
  unfold ValidDate; infer_instance

/-- A measure on the date part, strictly monotone along the calendar for
valid dates; it drives the termination of the fail-sweep loop. -/
def dateKey (d : PyDateTime) : Nat :=
  d.year * 372 + (d.month - 1) * 31 + (d.day - 1)

def validDate_nextDay {d : PyDateTime} (hv : ValidDate d) :
    ValidDate d.nextDay := by
  obtain ⟨h1, h2, h3, h4⟩ := hv
  unfold PyDateTime.nextDay
  split_ifs with hday hmon <;> unfold ValidDate <;> dsimp only
  · exact ⟨h1, h2, by omega, by omega⟩
  · have := le_daysInMonth d.year (d.month + 1)
    exact ⟨by omega, by omega, by omega, by omega⟩
  · have := le_daysInMonth (d.year + 1) 1
    exact ⟨by omega, by omega, by omega, by omega⟩

def dateKey_lt_nextDay {d : PyDateTime} (hv : ValidDate d) :
    dateKey d < dateKey d.nextDay := by
  obtain ⟨h1, h2, h3, h4⟩ := hv
  have h31 := daysInMonth_le d.year d.month
  unfold PyDateTime.nextDay
  split_ifs with hday hmon <;> unfold dateKey <;> dsimp only <;> omega

def validDate_addDays {d : PyDateTime} (hv : ValidDate d) (n : Nat) :
    ValidDate (d.addDays n) := by
  induction n generalizing d with
  | zero => exact hv
  | succ n ih => exact ih (validDate_nextDay hv)

def dateKey_lt_addDays {d : PyDateTime} (hv : ValidDate d) {n : Nat}
    (hn : 0 < n) : dateKey d < dateKey (d.addDays n) := by
  induction n generalizing d with
  | zero => omega
  | succ n ih =>
    rcases Nat.eq_zero_or_pos n with h0 | hpos
    · subst h0; exact dateKey_lt_nextDay hv
    · exact lt_trans (dateKey_lt_nextDay hv) (ih (validDate_nextDay hv) hpos)

/-- The two `ValueError`s the modelled code can raise. -/
inductive PyError where
  | invalidPeriodicity
  | invalidDate
deriving DecidableEq

/-- `datetime.replace(year=y, month=m, day=day)`: validates the new date
(the time fields are untouched by the calls the source makes). -/
def replaceYMD (d : PyDateTime) (y m day : Nat) : Except PyError PyDateTime :=
  if 1 ≤ m ∧ m ≤ 12 ∧ 1 ≤ day ∧ day ≤ daysInMonth y m then
    .ok { d with year := y, month := m, day := day }
  else .error .invalidDate

/-- `Habit.increment_completion_date` from models.py: advance `date` by the
period selected by `p` (1 Daily, 2 Weekly, 3 Monthly, 4 Yearly). -/
def incrementCompletionDate (p : Nat) (date : PyDateTime) :
    Except PyError PyDateTime :=
  if p = 1 then .ok (date.addDays 1)
  else if p = 2 then .ok (date.addDays 7)
  else if p = 3 then
    replaceYMD date (date.year + date.month / 12) (date.month % 12 + 1)
      (min date.day 28)
  else if p = 4 then
    replaceYMD date (date.year + 1) date.month date.day
  else .error .invalidPeriodicity

def validDate_increment {p : Nat} {d d' : PyDateTime} (hv : ValidDate d)
    (h : incrementCompletionDate p d = .ok d') : ValidDate d' := by
  unfold incrementCompletionDate at h
  split_ifs at h with h1 h2 h3 h4
  · exact (Except.ok.injEq _ _).mp h ▸ validDate_addDays hv 1
  · exact (Except.ok.injEq _ _).mp h ▸ validDate_addDays hv 7
  all_goals
    unfold replaceYMD at h
    split_ifs at h with hc
    obtain ⟨c1, c2, c3, c4⟩ := hc
    cases h
    exact ⟨c1, c2, c3, c4⟩

def dateKey_lt_increment {p : Nat} {d d' : PyDateTime} (hv : ValidDate d)
    (h : incrementCompletionDate p d = .ok d') : dateKey d < dateKey d' := by
  obtain ⟨h1, h2, h3, h4⟩ := hv
  have h31 := daysInMonth_le d.year d.month
  unfold incrementCompletionDate at h
  split_ifs at h with hp1 hp2 hp3 hp4
  · exact (Except.ok.injEq _ _).mp h ▸ dateKey_lt_addDays ⟨h1, h2, h3, h4⟩ one_pos
  · exact (Except.ok.injEq _ _).mp h ▸ dateKey_lt_addDays ⟨h1, h2, h3, h4⟩ (by omega)
  all_goals
    unfold replaceYMD at h
    split_ifs at h
    cases h
    unfold dateKey
    dsimp only
    omega

/-- `next_completion_date.replace(hour=23, minute=59, second=59)`: the end of
the deadline's check-in day.  `replace` keeps the microsecond field. -/
def endOfDay (d : PyDateTime) : PyDateTime :=
  { d with hour := 23, minute := 59, second := 59 }

/-- `next_completion_date.replace(hour=0, minute=0, second=0)`: the start of
the deadline's check-in day.  `replace` keeps the microsecond field. -/
def startOfDay (d : PyDateTime) : PyDateTime :=
  { d with hour := 0, minute := 0, second := 0 }

def dateKey_le_of_eod_ltb {d now : PyDateTime} (hv : ValidDate d)
    (h : (endOfDay d).ltb now = true) : dateKey d ≤ dateKey now := by
  obtain ⟨h1, h2, h3, h4⟩ := hv
  have h31 := daysInMonth_le d.year d.month
  unfold PyDateTime.ltb endOfDay at h
  rw [decide_eq_true_eq] at h
  dsimp only at h
  unfold dateKey
  omega

/-- A decoration record (models.py `Decoration`).  `exp` is ℚ because the
startup fail-sweep subtracts `award / 2` with Python true division. -/
structure Decoration where
  name : String
  room : String
  state : String
  exp : ℚ
deriving DecidableEq

/-- `Decoration.exp_states` as the reverse-sorted list of `(threshold, state)`
pairs that `update_state`'s loop walks: `sorted(exp_states.items(),
reverse=True)` on the dict `{0: Old, 16: Normal, 32: Good, 64: Great}`. -/
def expStatesDesc : List (ℚ × String) :=
  [(64, "Great"), (32, "Good"), (16, "Normal"), (0, "Old")]

/-- `Decoration.update_state`: the first threshold not above `exp` wins; if
no threshold matches (negative `exp`) the loop leaves `state` untouched. -/
def updateState (exp : ℚ) (prev : String) : String :=
  match expStatesDesc.find? (fun ts => decide (ts.1 ≤ exp)) with
  | some ts => ts.2
  | none => prev

/-- `Decoration.update_state` as a record transformer (the notification side
channel of the source is display-only and not modelled). -/
def Decoration.update_state (d : Decoration) : Decoration :=
  { d with state := updateState d.exp d.state }

/-- A habit record (models.py `Habit`). -/
structure Habit where
  name : String
  periodicity : Nat
  decoration : Decoration
  next_completion_date : PyDateTime
  fails : Nat
  streak : Nat
  longest_streak : Nat
deriving DecidableEq

/-- `Habit.exp_values = {1: 1, 2: 8, 3: 16, 4: 32}` (`dict.get`). -/
def expValues (p : Nat) : Option Nat :=
  if p = 1 then some 1
  else if p = 2 then some 8
  else if p = 3 then some 16
  else if p = 4 then some 32
  else none

/-- The `while` loop of `Habit.calculate_fails`: as long as `now` is strictly
after the end of `ncd`'s day, advance `ncd` one period and count a fail.
Arguments `fails` and `det` thread the `self.fails` counter and the
`fails_detected` local; an exception from `increment_completion_date`
aborts the loop with the state mutated so far. -/
def calcFailsLoop (p : Nat) (now ncd : PyDateTime) (fails : Nat) (det : Bool)
    (hv : ValidDate ncd) :
    Except (PyError × PyDateTime × Nat) (PyDateTime × Nat × Bool) :=
  if hc : (endOfDay ncd).ltb now = true then
    match hinc : incrementCompletionDate p ncd with
    | .error e => .error (e, ncd, fails)
    | .ok ncd' => calcFailsLoop p now ncd' (fails + 1) true
        (validDate_increment hv hinc)
  else .ok (ncd, fails, det)
termination_by (dateKey now + 1) - dateKey ncd
decreasing_by
  have ha := dateKey_lt_increment hv hinc
  have hb := dateKey_le_of_eod_ltb hv hc
  omega

/-- `Habit.calculate_fails`: run the catch-up loop from the habit's state;
if any fail was detected, fold the pre-sweep streak into `longest_streak`
(when greater) and reset the streak, then return `fails_detected`.  An
exception propagates with the partially mutated habit (the streak fold
never runs in that case). -/
def Habit.calculate_fails (h : Habit) (now : PyDateTime)
    (hv : ValidDate h.next_completion_date) :
    Except (PyError × Habit) (Habit × Bool) :=
  match calcFailsLoop h.periodicity now h.next_completion_date h.fails false hv with
  | .error (e, ncd, f) =>
      .error (e, { h with next_completion_date := ncd, fails := f })
  | .ok (ncd, f, det) =>
      if det then
        .ok ({ h with
               next_completion_date := ncd
               fails := f
               longest_streak := if h.longest_streak < h.streak then h.streak
                                 else h.longest_streak
               streak := 0 }, true)
      else
        .ok ({ h with next_completion_date := ncd, fails := f }, false)

/-- `Habit.check_in`: reject early check-ins without mutation; inside the
deadline day's window bump the streak, award EXP, recompute the decoration
state, advance the deadline and update the record streak; any other `now`
falls through to a mutation-free failure.  The `replace` exception of a
Yearly advancement propagates after the streak/EXP mutations. -/
def Habit.check_in (h : Habit) (now : PyDateTime) :
    Except (PyError × Habit) (Habit × Bool) :=
  let start := startOfDay h.next_completion_date
  let stop := endOfDay h.next_completion_date
  if now.ltb start then .ok (h, false)
  else if start.leb now && now.leb stop then
    let streak' := h.streak + 1
    let decor' := { h.decoration with
      exp := h.decoration.exp + ((expValues h.periodicity).getD 0 : Nat) }
    let decor'' := decor'.update_state
    match incrementCompletionDate h.periodicity h.next_completion_date with
    | .error e => .error (e, { h with streak := streak', decoration := decor'' })
    | .ok ncd' =>
      let h' := { h with
                  streak := streak'
                  decoration := decor''
                  next_completion_date := ncd' }
      if h'.longest_streak < h'.streak then
        .ok ({ h' with longest_streak := h'.streak }, true)
      else .ok (h', true)
  else .ok (h, false)

/-- The body of `functools.reduce` in `Analytics.get_most_failed_habit`:
`lambda x, y: x if x.fails > y.fails else y` (ties keep `y`). -/
def moreFailed (x y : Habit) : Habit :=
  if y.fails < x.fails then x else y

/-- `Analytics.get_most_failed_habit`: reduce over the habit list, then
return the winner's name when it has fails, else a sentinel string. -/
def getMostFailedHabit : List Habit → String
  | [] => "No habits found."
  | x :: xs =>
    let m := xs.foldl moreFailed x
    if 0 < m.fails then m.name else "No fails were found."

/-- One round of the startup EXP deduction in the main module:
`exp = max(exp - exp_values.get(periodicity, 0) / 2, 0)` — Python `/` is
true division, so the deduction is `award / 2` exactly. -/
def deductExpOnce (p : Nat) (exp : ℚ) : ℚ :=
  max (exp - ((expValues p).getD 0 : Nat) / 2) 0

/-- The startup deduction loop: one `deductExpOnce` per newly incurred fail. -/
def deductExpFails (p : Nat) (exp : ℚ) : Nat → ℚ
  | 0 => exp
  | n + 1 => deductExpFails p (deductExpOnce p exp) n

/-- `n` successive applications of `increment_completion_date`, used to state
what the fail-sweep did to the deadline. -/
def iterIncrement (p : Nat) (d : PyDateTime) : Nat → Except PyError PyDateTime
  | 0 => .ok d
  | n + 1 =>
    match incrementCompletionDate p d with
    | .ok d' => iterIncrement p d' n
    | .error e => .error e

/-- Rank of a decoration state in the progression order of the threshold
table (`Old` and unknown labels at the bottom). -/
def stateRank (s : String) : Nat :=
  if s = "Normal" then 1
  else if s = "Good" then 2
  else if s = "Great" then 3
  else 0

/-- Modelled from the spec: the threshold table as the ordered ascending
list it is written as in §3, `{0 → Old, 16 → Normal, 32 → Good, 64 → Great}`. -/
def expStatesAsc : List (ℚ × String) :=
  [(0, "Old"), (16, "Normal"), (32, "Good"), (64, "Great")]

/-- Modelled from the spec: `state = max(label : threshold <= exp)` — the
label of the highest threshold not exceeding `exp` in the ordered table. -/
def stateFromTable (exp : ℚ) : Option String :=
  (expStatesAsc.filter (fun ts => decide (ts.1 ≤ exp))).getLast?.map Prod.snd

/-- Whether an `Except` result is a normal return. -/
def isOkResult {ε α : Type} : Except ε α → Bool
  | .ok _ => true
  | .error _ => false

/-- Habit states reachable from a freshly created habit
(`streak = fails = longest_streak = 0`) by normally returning check-ins
and fail-sweeps. -/
inductive ReachableHabit : Habit → Prop where
  | fresh (name : String) (p : Nat) (decor : Decoration) (ncd : PyDateTime) :
      ReachableHabit ⟨name, p, decor, ncd, 0, 0, 0⟩
  | stepCheckIn {h h' : Habit} {now : PyDateTime} {b : Bool} :
      ReachableHabit h → h.check_in now = .ok (h', b) → ReachableHabit h'
  | stepFails {h h' : Habit} {now : PyDateTime}
      {hv : ValidDate h.next_completion_date} {b : Bool} :
      ReachableHabit h → h.calculate_fails now hv = .ok (h', b) →
      ReachableHabit h'

/-- A habit literal for concrete checks. -/
def mkHabit (nm : String) (p : Nat) (ncd : PyDateTime) (f s ls : Nat) : Habit :=
  ⟨nm, p, ⟨"Sofa", "Living Room", "Old", 5⟩, ncd, f, s, ls⟩

/-- A Yearly habit whose stored deadline is the leap day Feb 29, 2024. -/
def febHabit : Habit :=
  mkHabit "stretch" 4 ⟨2024, 2, 29, 10, 30, 0, 0⟩ 0 2 2

/-- A Daily habit two days behind, for exercising the fail-sweep. -/
def sweepHabit : Habit :=
  mkHabit "walk" 1 ⟨2025, 1, 1, 9, 0, 0, 0⟩ 1 5 5

/-- A current time two deadlines past `sweepHabit`'s stored deadline. -/
def sweepNow : PyDateTime :=
  ⟨2025, 1, 3, 12, 0, 0, 0⟩

/-- The state `sweepHabit` reaches after the sweep at `sweepNow`. -/
def sweepHabit' : Habit :=
  mkHabit "walk" 1 ⟨2025, 1, 3, 9, 0, 0, 0⟩ 3 0 5

/-- A Weekly habit with a deadline whose stored microsecond is 30. -/
def ciHabit : Habit :=
  mkHabit "read" 2 ⟨2025, 6, 10, 8, 0, 0, 30⟩ 0 3 7

/-- A December 31 date, exercising the month and year rollovers. -/
def dec31 : PyDateTime := ⟨2025, 12, 31, 5, 6, 7, 8⟩

/-- The end-of-day instant of `ciHabit`'s deadline day (microsecond kept). -/
def ciNow : PyDateTime := ⟨2025, 6, 10, 23, 59, 59, 30⟩

/-- A habit with one recorded fail. -/
def gymHabit : Habit := mkHabit "gym" 1 ⟨2025, 1, 1, 0, 0, 0, 0⟩ 1 0 0

/-- A habit with four recorded fails. -/
def yogaHabit : Habit := mkHabit "yoga" 1 ⟨2025, 1, 1, 0, 0, 0, 0⟩ 4 0 0

theorem febHabit_valid : ValidDate febHabit.next_completion_date := by decide

theorem sweepHabit_valid : ValidDate sweepHabit.next_completion_date := by decide

theorem ltb_nextDay (d : PyDateTime) : d.ltb d.nextDay = true := by
  unfold PyDateTime.nextDay
  split_ifs with h1 h2 <;> simp [PyDateTime.ltb] <;> omega

theorem ltb_trans {a b c : PyDateTime} (h1 : a.ltb b = true)
    (h2 : b.ltb c = true) : a.ltb c = true := by
  simp only [PyDateTime.ltb, decide_eq_true_eq] at h1 h2 ⊢
  omega

theorem ltb_addDays (d : PyDateTime) {n : Nat} (hn : 0 < n) :
    d.ltb (d.addDays n) = true := by
  induction n generalizing d with
  | zero => omega
  | succ n ih =>
    rcases Nat.eq_zero_or_pos n with h0 | hpos
    · subst h0; exact ltb_nextDay d
    · exact ltb_trans (ltb_nextDay d) (ih d.nextDay hpos)

theorem calcFailsLoop_spec {p : Nat} {now : PyDateTime} (ncd : PyDateTime)
    (fails : Nat) (det : Bool) (hv : ValidDate ncd) :
    ∀ ncd' fails' det',
      calcFailsLoop p now ncd fails det hv = .ok (ncd', fails', det') →
      ∃ k, iterIncrement p ncd k = .ok ncd' ∧ fails' = fails + k ∧
        det' = (det || decide (0 < k)) ∧
        (∀ j dj, j < k → iterIncrement p ncd j = .ok dj →
          (endOfDay dj).ltb now = true) ∧
        (endOfDay ncd').ltb now = false := by
  induction ncd, fails, det, hv using calcFailsLoop.induct p now with
  | case1 ncd fails det hv hc e hinc =>
    intro ncd' fails' det' h
    rw [calcFailsLoop.eq_def, dif_pos hc] at h
    split at h
    · cases h
    · rename_i x heq
      rw [hinc] at heq
      cases heq
  | case2 ncd fails det hv hc ncd1 hinc ih =>
    intro ncd' fails' det' h
    rw [calcFailsLoop.eq_def, dif_pos hc] at h
    split at h
    · rename_i e heq
      rw [hinc] at heq
      cases heq
    · rename_i x heq
      rw [hinc] at heq
      injection heq with hx
      subst hx
      obtain ⟨k1, hiter, hfails, hdet, hall, hfin⟩ := ih ncd' fails' det' h
      refine ⟨k1 + 1, ?_, by omega, by simp [hdet], ?_, hfin⟩
      · simpa [iterIncrement, hinc] using hiter
      · intro j dj hj hij
        cases j with
        | zero =>
          simp [iterIncrement] at hij
          subst hij
          exact hc
        | succ j1 =>
          apply hall j1 dj (by omega)
          simpa [iterIncrement, hinc] using hij
  | case3 ncd fails det hv hc =>
    intro ncd' fails' det' h
    rw [calcFailsLoop.eq_def, dif_neg hc] at h
    simp only [Except.ok.injEq, Prod.mk.injEq] at h
    obtain ⟨rfl, rfl, rfl⟩ := h
    exact ⟨0, rfl, by omega, by simp, by omega, by simpa using hc⟩

/-- C1 (amended: stated for sweeps that return normally — a Yearly habit
whose deadline chain crosses Feb 29 aborts with a date error instead, see
the counterexample): for every habit with a valid periodicity, a normally
returning `calculate_fails` advanced `next_completion_date` through `k`
one-period steps and incremented `fails` by 1 for each of the `k` swept
deadlines, each of which had its end-of-day (23:59:59) boundary strictly
before `now`, while the final deadline does not; if at least one fail was
applied it folded the pre-sweep streak into `longest_streak` (only if
greater) and reset the streak to 0 exactly once; it returns `true` iff at
least one fail was applied, and a fail-free sweep leaves the habit
untouched. -/
theorem calculate_fails_spec (h : Habit) (now : PyDateTime)
    (hv : ValidDate h.next_completion_date)
    (hp : 1 ≤ h.periodicity ∧ h.periodicity ≤ 4)
    (h' : Habit) (b : Bool)
    (hok : h.calculate_fails now hv = .ok (h', b)) :
    ∃ k, iterIncrement h.periodicity h.next_completion_date k =
        .ok h'.next_completion_date ∧
      h'.fails = h.fails + k ∧
      (b = true ↔ 0 < k) ∧
      (∀ j dj, j < k →
        iterIncrement h.periodicity h.next_completion_date j = .ok dj →
        (endOfDay dj).ltb now = true) ∧
      (endOfDay h'.next_completion_date).ltb now = false ∧
      (0 < k → h'.streak = 0 ∧
        h'.longest_streak = max h.streak h.longest_streak) ∧
      (k = 0 → h' = h) ∧
      h'.name = h.name ∧ h'.periodicity = h.periodicity ∧
      h'.decoration = h.decoration := by
  unfold Habit.calculate_fails at hok
  cases hml : calcFailsLoop h.periodicity now h.next_completion_date h.fails false hv with
  | error e =>
    rw [hml] at hok
    cases hok
  | ok v =>
    obtain ⟨ncd1, f1, det1⟩ := v
    rw [hml] at hok
    obtain ⟨k, hiter, hfails, hdet, hall, hfin⟩ :=
      calcFailsLoop_spec _ _ _ _ _ _ _ hml
    simp only [Bool.false_or] at hdet
    cases det1 with
    | true =>
      simp only [if_true, Except.ok.injEq, Prod.mk.injEq] at hok
      obtain ⟨rfl, rfl⟩ := hok
      have hk : 0 < k := by
        by_contra hk0
        simp [Nat.not_lt, Nat.le_zero] at hk0
        subst hk0
        simp at hdet
      refine ⟨k, hiter, hfails, by simp [hk], hall, hfin, ?_, by omega, rfl, rfl, rfl⟩
      intro _
      refine ⟨rfl, ?_⟩
      dsimp only
      rw [Nat.max_def]
      split_ifs <;> omega
    | false =>
      simp only [if_false, Except.ok.injEq, Prod.mk.injEq] at hok
      obtain ⟨rfl, rfl⟩ := hok
      have hk : k = 0 := by
        by_contra hk0
        have : 0 < k := Nat.pos_of_ne_zero hk0
        simp [this] at hdet
      subst hk
      simp only [iterIncrement, Except.ok.injEq] at hiter
      subst hiter
      have hh : ({ h with
                   next_completion_date := h.next_completion_date
                   fails := f1 } : Habit) = h := by
        simp [hfails]
      refine ⟨0, rfl, by simpa using hfails, by simp, by omega, ?_, by omega,
        fun _ => hh, by rw [hh], rfl, by rw [hh]⟩
      simpa using hfin

/-- C1 counterexample: `febHabit` is a Yearly habit whose deadline
(Feb 29, 2024) has its end-of-day boundary strictly before `now`
(Mar 1, 2026), yet `calculate_fails` neither advances the deadline nor
increments `fails` nor returns a boolean: the date advancement raises and
the call aborts with the habit still in its pre-sweep state. -/
theorem calculate_fails_feb29_counterexample :
    (endOfDay febHabit.next_completion_date).ltb ⟨2026, 3, 1, 0, 0, 0, 0⟩ = true ∧
    Habit.calculate_fails febHabit ⟨2026, 3, 1, 0, 0, 0, 0⟩ febHabit_valid =
      .error (.invalidDate, febHabit) := by
  refine ⟨by decide, ?_⟩
  rw [Habit.calculate_fails, calcFailsLoop.eq_def]
  norm_num [febHabit, mkHabit, endOfDay, PyDateTime.ltb]
  rfl

theorem calculate_fails_spec_witness :
    (1 ≤ sweepHabit.periodicity ∧ sweepHabit.periodicity ≤ 4) ∧
    (∃ k, iterIncrement sweepHabit.periodicity sweepHabit.next_completion_date k =
        .ok sweepHabit'.next_completion_date ∧
      sweepHabit'.fails = sweepHabit.fails + k ∧
      (true = true ↔ 0 < k) ∧
      (∀ j dj, j < k →
        iterIncrement sweepHabit.periodicity sweepHabit.next_completion_date j = .ok dj →
        (endOfDay dj).ltb sweepNow = true) ∧
      (endOfDay sweepHabit'.next_completion_date).ltb sweepNow = false ∧
      (0 < k → sweepHabit'.streak = 0 ∧
        sweepHabit'.longest_streak = max sweepHabit.streak sweepHabit.longest_streak) ∧
      (k = 0 → sweepHabit' = sweepHabit) ∧
      sweepHabit'.name = sweepHabit.name ∧
      sweepHabit'.periodicity = sweepHabit.periodicity ∧
      sweepHabit'.decoration = sweepHabit.decoration) :=
  ⟨⟨by decide, by decide⟩,
    calculate_fails_spec sweepHabit sweepNow sweepHabit_valid ⟨by decide, by decide⟩
      sweepHabit' true (by
        have hloop : calcFailsLoop 1 ⟨2025, 1, 3, 12, 0, 0, 0⟩
            ⟨2025, 1, 1, 9, 0, 0, 0⟩ 1 false (by decide) =
            .ok (⟨2025, 1, 3, 9, 0, 0, 0⟩, 3, true) := by
          rw [calcFailsLoop.eq_def]
          show calcFailsLoop 1 ⟨2025, 1, 3, 12, 0, 0, 0⟩
            ⟨2025, 1, 2, 9, 0, 0, 0⟩ 2 true (by decide) = _
          rw [calcFailsLoop.eq_def]
          show calcFailsLoop 1 ⟨2025, 1, 3, 12, 0, 0, 0⟩
            ⟨2025, 1, 3, 9, 0, 0, 0⟩ 3 true (by decide) = _
          rw [calcFailsLoop.eq_def]
          rfl
        rw [Habit.calculate_fails]
        dsimp only [sweepHabit, sweepNow, mkHabit]
        rw [hloop]
        rfl)⟩

/-- C10: whenever `increment_completion_date` returns a value, that value is
strictly later (full datetime order) than its input date; hence for a fixed
`now` only finitely many deadlines lie before it and the catch-up loop of
`calculate_fails` cannot run forever (here the loop is compiled by
well-founded recursion on exactly that measure). -/
theorem increment_strictly_later (p : Nat) {d d' : PyDateTime}
    (hv : ValidDate d) (h : incrementCompletionDate p d = .ok d') :
    d.ltb d' = true := by
  obtain ⟨h1, h2, h3, h4⟩ := hv
  unfold incrementCompletionDate at h
  split_ifs at h with hp1 hp2 hp3 hp4
  · exact (Except.ok.injEq _ _).mp h ▸ ltb_addDays d one_pos
  · exact (Except.ok.injEq _ _).mp h ▸ ltb_addDays d (by omega)
  all_goals
    unfold replaceYMD at h
    split_ifs at h
    cases h
    simp only [PyDateTime.ltb, decide_eq_true_eq]
    omega

theorem increment_strictly_later_witness :
    ValidDate ⟨2025, 1, 31, 7, 0, 0, 0⟩ ∧
    PyDateTime.ltb ⟨2025, 1, 31, 7, 0, 0, 0⟩ ⟨2025, 2, 28, 7, 0, 0, 0⟩ = true :=
  ⟨by decide, increment_strictly_later 3 (by decide) (by rfl)⟩

/-- C4 (amended: the Yearly rule is stated for calls that return — a Feb 29
source has no same-month-and-day date in the next year and the operation
raises instead, see the counterexample): Daily returns the date plus one
day and Weekly the date plus seven; Monthly returns the same day-of-month
in the next calendar month (December rolling into January of the next
year), clamped to 28 whenever the source day exceeds 28, so every monthly
increment lands on a day ≤ 28, with the time of day unchanged; Yearly,
whenever it returns a date, returns the same month and day in the next
year. -/
theorem increment_period_rules (d : PyDateTime) (hv : ValidDate d) :
    incrementCompletionDate 1 d = .ok (d.addDays 1) ∧
    incrementCompletionDate 2 d = .ok (d.addDays 7) ∧
    (∃ d3, incrementCompletionDate 3 d = .ok d3 ∧
      d3.year = (if d.month = 12 then d.year + 1 else d.year) ∧
      d3.month = (if d.month = 12 then 1 else d.month + 1) ∧
      d3.day = (if 28 < d.day then 28 else d.day) ∧
      d3.day ≤ 28 ∧
      d3.hour = d.hour ∧ d3.minute = d.minute ∧ d3.second = d.second ∧
      d3.microsecond = d.microsecond) ∧
    (∀ d4, incrementCompletionDate 4 d = .ok d4 →
      d4 = { d with year := d.year + 1 }) := by
  obtain ⟨h1, h2, h3, h4⟩ := hv
  refine ⟨by norm_num [incrementCompletionDate],
    by norm_num [incrementCompletionDate], ?_, ?_⟩
  · have hmc : 1 ≤ d.month % 12 + 1 ∧ d.month % 12 + 1 ≤ 12 ∧
        1 ≤ min d.day 28 ∧
        min d.day 28 ≤ daysInMonth (d.year + d.month / 12) (d.month % 12 + 1) := by
      have := le_daysInMonth (d.year + d.month / 12) (d.month % 12 + 1)
      omega
    have hrep : incrementCompletionDate 3 d = .ok { d with
        year := d.year + d.month / 12
        month := d.month % 12 + 1
        day := min d.day 28 } := by
      norm_num [incrementCompletionDate]
      unfold replaceYMD
      rw [if_pos hmc]
    refine ⟨_, hrep, ?_, ?_, ?_, ?_, rfl, rfl, rfl, rfl⟩ <;> dsimp only
    · split_ifs <;> omega
    · split_ifs <;> omega
    · split_ifs <;> omega
    · omega
  · intro d4 hinc
    norm_num [incrementCompletionDate] at hinc
    unfold replaceYMD at hinc
    split_ifs at hinc
    exact ((Except.ok.injEq _ _).mp hinc).symm

/-- C4 counterexample: the Yearly increment of the valid date Feb 29, 2024
returns no date at all — there is no same month and day in 2025 and the
`replace` call raises — refuting the claim's universal quantification over
dates. -/
theorem increment_feb29_counterexample :
    ValidDate ⟨2024, 2, 29, 10, 30, 0, 0⟩ ∧
    incrementCompletionDate 4 ⟨2024, 2, 29, 10, 30, 0, 0⟩ = .error .invalidDate :=
  ⟨by decide, by rfl⟩

theorem increment_period_rules_witness :
    ValidDate dec31 ∧
    (incrementCompletionDate 1 dec31 = .ok (dec31.addDays 1) ∧
    incrementCompletionDate 2 dec31 = .ok (dec31.addDays 7) ∧
    (∃ d3, incrementCompletionDate 3 dec31 = .ok d3 ∧
      d3.year = (if dec31.month = 12 then dec31.year + 1 else dec31.year) ∧
      d3.month = (if dec31.month = 12 then 1 else dec31.month + 1) ∧
      d3.day = (if 28 < dec31.day then 28 else dec31.day) ∧
      d3.day ≤ 28 ∧
      d3.hour = dec31.hour ∧ d3.minute = dec31.minute ∧
      d3.second = dec31.second ∧
      d3.microsecond = dec31.microsecond) ∧
    (∀ d4, incrementCompletionDate 4 dec31 = .ok d4 →
      d4 = { dec31 with year := dec31.year + 1 })) :=
  ⟨by decide, increment_period_rules dec31 (by decide)⟩

/-- C5: the claim's exception contract is the spec's intent, but the code
violates it on the leap day: Yearly — a recognized periodicity — on the
valid date Feb 29, 2024 terminates abnormally with the date `ValueError`
from `datetime.replace`, while unrecognized periodicity values raise the
invalid-argument error exactly as the claim says. -/
theorem increment_exception_contract_eval :
    ValidDate ⟨2024, 2, 29, 23, 59, 59, 0⟩ ∧
    incrementCompletionDate 4 ⟨2024, 2, 29, 23, 59, 59, 0⟩ =
      .error .invalidDate ∧
    incrementCompletionDate 0 ⟨2024, 2, 29, 23, 59, 59, 0⟩ =
      .error .invalidPeriodicity ∧
    incrementCompletionDate 5 ⟨2024, 2, 29, 23, 59, 59, 0⟩ =
      .error .invalidPeriodicity :=
  ⟨by decide, by rfl, by rfl, by rfl⟩

/-- C2 (amended: stated for check-ins whose one-period date advancement
succeeds — a Yearly habit with a Feb 29 deadline raises after the
streak/EXP mutations instead of returning success, see the counterexample):
for every habit with a valid periodicity and every `now` inside the
`[start-of-day, end-of-day]` window of the deadline's day, `check_in`
increments the streak by exactly 1, adds the periodicity award (Daily 1,
Weekly 8, Monthly 16, Yearly 32) to the linked decoration's EXP, recomputes
the decoration state from the new EXP, advances the deadline by exactly one
period, raises `longest_streak` to the new streak exactly when the new
streak exceeds it, and returns success. -/
theorem check_in_on_time (h : Habit) (now : PyDateTime)
    (hp : 1 ≤ h.periodicity ∧ h.periodicity ≤ 4)
    (hs : (startOfDay h.next_completion_date).leb now = true)
    (he : now.leb (endOfDay h.next_completion_date) = true)
    (d' : PyDateTime)
    (hinc : incrementCompletionDate h.periodicity h.next_completion_date = .ok d') :
    ∃ h', h.check_in now = .ok (h', true) ∧
      h'.streak = h.streak + 1 ∧
      h'.decoration.exp =
        h.decoration.exp + ((expValues h.periodicity).getD 0 : Nat) ∧
      (h.periodicity = 1 → h'.decoration.exp = h.decoration.exp + 1) ∧
      (h.periodicity = 2 → h'.decoration.exp = h.decoration.exp + 8) ∧
      (h.periodicity = 3 → h'.decoration.exp = h.decoration.exp + 16) ∧
      (h.periodicity = 4 → h'.decoration.exp = h.decoration.exp + 32) ∧
      h'.decoration.state = updateState h'.decoration.exp h.decoration.state ∧
      h'.decoration.name = h.decoration.name ∧
      h'.decoration.room = h.decoration.room ∧
      h'.next_completion_date = d' ∧
      h'.longest_streak = (if h.longest_streak < h.streak + 1 then h.streak + 1
                           else h.longest_streak) ∧
      h'.fails = h.fails ∧ h'.name = h.name ∧ h'.periodicity = h.periodicity := by
  have hlt : now.ltb (startOfDay h.next_completion_date) = false := by
    have hx := hs
    unfold PyDateTime.leb at hx
    rw [Bool.not_eq_true'] at hx
    exact hx
  rw [Habit.check_in]
  simp only [hlt, Bool.false_eq_true, if_false, hs, he, Bool.and_self, if_true, hinc]
  simp only [Decoration.update_state]
  by_cases hrec : h.longest_streak < h.streak + 1
  · simp only [hrec, if_true]
    refine ⟨_, rfl, rfl, rfl, ?_, ?_, ?_, ?_, rfl, rfl, rfl, rfl, rfl, rfl, rfl, rfl⟩
    · intro hpv; simp [hpv, expValues]
    · intro hpv; simp [hpv, expValues]
    · intro hpv; simp [hpv, expValues]
    · intro hpv; simp [hpv, expValues]
  · simp only [hrec, if_false]
    refine ⟨_, rfl, rfl, rfl, ?_, ?_, ?_, ?_, rfl, rfl, rfl, rfl, rfl, rfl, rfl, rfl⟩
    · intro hpv; simp [hpv, expValues]
    · intro hpv; simp [hpv, expValues]
    · intro hpv; simp [hpv, expValues]
    · intro hpv; simp [hpv, expValues]

/-- C2 counterexample: for the Yearly habit `febHabit`, `now` at noon of
the deadline day Feb 29, 2024 lies inside the check-in window, yet
`check_in` does not return success: the one-period advancement raises and
the call aborts. -/
theorem check_in_feb29_counterexample :
    (startOfDay febHabit.next_completion_date).leb ⟨2024, 2, 29, 12, 0, 0, 0⟩ = true ∧
    PyDateTime.leb ⟨2024, 2, 29, 12, 0, 0, 0⟩ (endOfDay febHabit.next_completion_date) = true ∧
    isOkResult (Habit.check_in febHabit ⟨2024, 2, 29, 12, 0, 0, 0⟩) = false :=
  ⟨by decide, by decide, by rfl⟩

theorem check_in_on_time_witness :
    (1 ≤ ciHabit.periodicity ∧ ciHabit.periodicity ≤ 4) ∧
    (startOfDay ciHabit.next_completion_date).leb ciNow = true ∧
    ciNow.leb (endOfDay ciHabit.next_completion_date) = true ∧
    incrementCompletionDate ciHabit.periodicity ciHabit.next_completion_date =
      .ok ⟨2025, 6, 17, 8, 0, 0, 30⟩ ∧
    (∃ h', ciHabit.check_in ciNow = .ok (h', true) ∧
      h'.streak = ciHabit.streak + 1 ∧
      h'.decoration.exp =
        ciHabit.decoration.exp + ((expValues ciHabit.periodicity).getD 0 : Nat) ∧
      (ciHabit.periodicity = 1 → h'.decoration.exp = ciHabit.decoration.exp + 1) ∧
      (ciHabit.periodicity = 2 → h'.decoration.exp = ciHabit.decoration.exp + 8) ∧
      (ciHabit.periodicity = 3 → h'.decoration.exp = ciHabit.decoration.exp + 16) ∧
      (ciHabit.periodicity = 4 → h'.decoration.exp = ciHabit.decoration.exp + 32) ∧
      h'.decoration.state = updateState h'.decoration.exp ciHabit.decoration.state ∧
      h'.decoration.name = ciHabit.decoration.name ∧
      h'.decoration.room = ciHabit.decoration.room ∧
      h'.next_completion_date = ⟨2025, 6, 17, 8, 0, 0, 30⟩ ∧
      h'.longest_streak = (if ciHabit.longest_streak < ciHabit.streak + 1
                           then ciHabit.streak + 1 else ciHabit.longest_streak) ∧
      h'.fails = ciHabit.fails ∧ h'.name = ciHabit.name ∧
      h'.periodicity = ciHabit.periodicity) :=
  ⟨⟨by decide, by decide⟩, by decide, by decide, by rfl,
    check_in_on_time ciHabit ciNow ⟨by decide, by decide⟩ (by decide) (by decide)
      ⟨2025, 6, 17, 8, 0, 0, 30⟩ (by rfl)⟩

theorem ltb_self (a : PyDateTime) : a.ltb a = false := by
  simp only [PyDateTime.ltb, decide_eq_false_iff_not]
  omega

theorem eod_ltb_start (d : PyDateTime) :
    (endOfDay d).ltb (startOfDay d) = false := by
  simp only [PyDateTime.ltb, endOfDay, startOfDay, decide_eq_false_iff_not]
  omega

theorem now_ltb_start_of_late {d now : PyDateTime}
    (hl : (endOfDay d).ltb now = true) : now.ltb (startOfDay d) = false := by
  simp only [PyDateTime.ltb, endOfDay, decide_eq_true_eq] at hl
  simp only [PyDateTime.ltb, startOfDay, decide_eq_false_iff_not]
  omega

/-- C3 (amended: the boundary-instant successes hold whenever the date
advancement succeeds — the Feb 29 Yearly corner raises at those instants
instead, see the counterexample): every `now` strictly before the start of
the deadline's day (in particular one microsecond before it) is rejected as
too early with no mutation; every `now` strictly after the end of the day
is rejected with no mutation; a returning call succeeds exactly when `now`
lies in the `[start-of-day, end-of-day]` window, every failing return
leaves the habit unchanged, and at the exact start-of-day and end-of-day
instants the call succeeds whenever the advancement succeeds. -/
theorem check_in_window (h : Habit) (now : PyDateTime) :
    (now.ltb (startOfDay h.next_completion_date) = true →
      h.check_in now = .ok (h, false)) ∧
    ((endOfDay h.next_completion_date).ltb now = true →
      h.check_in now = .ok (h, false)) ∧
    (∀ h' b, h.check_in now = .ok (h', b) →
      (b = true ↔ ((startOfDay h.next_completion_date).leb now = true ∧
        now.leb (endOfDay h.next_completion_date) = true))) ∧
    (∀ h', h.check_in now = .ok (h', false) → h' = h) ∧
    (∀ d', incrementCompletionDate h.periodicity h.next_completion_date = .ok d' →
      (∃ h1, h.check_in (startOfDay h.next_completion_date) = .ok (h1, true)) ∧
      (∃ h2, h.check_in (endOfDay h.next_completion_date) = .ok (h2, true))) := by
  refine ⟨?_, ?_, ?_, ?_, ?_⟩
  · intro ht
    simp [Habit.check_in, ht]
  · intro hl
    have h1 := now_ltb_start_of_late hl
    have h2 : now.leb (endOfDay h.next_completion_date) = false := by
      simp [PyDateTime.leb, hl]
    simp [Habit.check_in, h1, h2]
  · intro h' b hok
    by_cases hb1 : now.ltb (startOfDay h.next_completion_date) = true
    · simp only [Habit.check_in, hb1, if_true, Except.ok.injEq, Prod.mk.injEq] at hok
      obtain ⟨rfl, rfl⟩ := hok
      have : (startOfDay h.next_completion_date).leb now = false := by
        simp [PyDateTime.leb, hb1]
      simp [this]
    · by_cases hb2 : ((startOfDay h.next_completion_date).leb now &&
          now.leb (endOfDay h.next_completion_date)) = true
      · simp only [Habit.check_in, hb1, Bool.false_eq_true, if_false, hb2, if_true] at hok
        cases hminc : incrementCompletionDate h.periodicity h.next_completion_date with
        | error e =>
          rw [hminc] at hok
          cases hok
        | ok d1 =>
          rw [hminc] at hok
          rw [Bool.and_eq_true] at hb2
          split_ifs at hok <;>
            simp only [Except.ok.injEq, Prod.mk.injEq] at hok <;>
            obtain ⟨rfl, rfl⟩ := hok <;>
            simpa using hb2
      · simp only [Habit.check_in, hb1, Bool.false_eq_true, if_false, hb2,
          Except.ok.injEq, Prod.mk.injEq] at hok
        obtain ⟨rfl, rfl⟩ := hok
        constructor
        · intro hfalse
          cases hfalse
        · intro hw
          exact absurd (by simp [hw.1, hw.2] : ((startOfDay h.next_completion_date).leb now &&
            now.leb (endOfDay h.next_completion_date)) = true) hb2
  · intro h' hok
    by_cases hb1 : now.ltb (startOfDay h.next_completion_date) = true
    · simp only [Habit.check_in, hb1, if_true, Except.ok.injEq, Prod.mk.injEq] at hok
      exact hok.1.symm
    · by_cases hb2 : ((startOfDay h.next_completion_date).leb now &&
          now.leb (endOfDay h.next_completion_date)) = true
      · simp only [Habit.check_in, hb1, Bool.false_eq_true, if_false, hb2, if_true] at hok
        cases hminc : incrementCompletionDate h.periodicity h.next_completion_date with
        | error e =>
          rw [hminc] at hok
          cases hok
        | ok d1 =>
          rw [hminc] at hok
          split_ifs at hok <;> simp at hok
      · simp only [Habit.check_in, hb1, Bool.false_eq_true, if_false, hb2,
          Except.ok.injEq, Prod.mk.injEq] at hok
        exact hok.1.symm
  · intro d' hinc
    constructor
    · have c1 : (startOfDay h.next_completion_date).ltb
          (startOfDay h.next_completion_date) = false := ltb_self _
      have c2 : (startOfDay h.next_completion_date).leb
          (startOfDay h.next_completion_date) = true := by
        simp [PyDateTime.leb, ltb_self]
      have c3 : (startOfDay h.next_completion_date).leb
          (endOfDay h.next_completion_date) = true := by
        simp [PyDateTime.leb, eod_ltb_start]
      simp only [Habit.check_in, c1, Bool.false_eq_true, if_false, c2, c3,
        Bool.and_self, if_true, hinc]
      split_ifs <;> exact ⟨_, rfl⟩
    · have c1 : (endOfDay h.next_completion_date).ltb
          (startOfDay h.next_completion_date) = false := eod_ltb_start _
      have c2 : (startOfDay h.next_completion_date).leb
          (endOfDay h.next_completion_date) = true := by
        simp [PyDateTime.leb, eod_ltb_start]
      have c3 : (endOfDay h.next_completion_date).leb
          (endOfDay h.next_completion_date) = true := by
        simp [PyDateTime.leb, ltb_self]
      simp only [Habit.check_in, c1, Bool.false_eq_true, if_false, c2, c3,
        Bool.and_self, if_true, hinc]
      split_ifs <;> exact ⟨_, rfl⟩

theorem foldl_moreFailed_spec (xs : List Habit) (x : Habit) :
    ∃ l1 l2, x :: xs = l1 ++ (xs.foldl moreFailed x) :: l2 ∧
      x.fails ≤ (xs.foldl moreFailed x).fails ∧
      (∀ h ∈ xs, h.fails ≤ (xs.foldl moreFailed x).fails) ∧
      (∀ h ∈ l2, h.fails < (xs.foldl moreFailed x).fails) := by
  induction xs generalizing x with
  | nil => exact ⟨[], [], rfl, le_refl _, by simp, by simp⟩
  | cons y ys ih =>
    simp only [List.foldl_cons]
    obtain ⟨l1, l2, heq, hle, hall, hlast⟩ := ih (moreFailed x y)
    set M := List.foldl moreFailed (moreFailed x y) ys with hMdef
    by_cases hxy : y.fails < x.fails
    · have hf : moreFailed x y = x := if_pos hxy
      rw [hf] at heq hle
      cases l1 with
      | nil =>
        simp only [List.nil_append, List.cons.injEq] at heq
        obtain ⟨hM, hl2⟩ := heq
        refine ⟨[], y :: ys, by simp [← hM], hle, ?_, ?_⟩
        · intro hh hmem
          rcases List.mem_cons.mp hmem with rfl | hm2
          · omega
          · exact hall hh hm2
        · intro hh hmem
          rcases List.mem_cons.mp hmem with rfl | hm2
          · omega
          · exact hlast hh (hl2 ▸ hm2)
      | cons z l1t =>
        simp only [List.cons_append, List.cons.injEq] at heq
        obtain ⟨hz, hrest⟩ := heq
        refine ⟨x :: y :: l1t, l2, by simp [hrest], hle, ?_, hlast⟩
        intro hh hmem
        rcases List.mem_cons.mp hmem with rfl | hm2
        · omega
        · exact hall hh hm2
    · have hf : moreFailed x y = y := if_neg hxy
      rw [hf] at heq hle
      cases l1 with
      | nil =>
        simp only [List.nil_append, List.cons.injEq] at heq
        obtain ⟨hM, hl2⟩ := heq
        refine ⟨[x], ys, by simp [← hM, hl2], by omega, ?_, ?_⟩
        · intro hh hmem
          rcases List.mem_cons.mp hmem with rfl | hm2
          · exact hle
          · exact hall hh hm2
        · intro hh hmem
          exact hlast hh (hl2 ▸ hmem)
      | cons z l1t =>
        simp only [List.cons_append, List.cons.injEq] at heq
        obtain ⟨hz, hrest⟩ := heq
        refine ⟨x :: y :: l1t, l2, by simp [hrest], by omega, ?_, hlast⟩
        intro hh hmem
        rcases List.mem_cons.mp hmem with rfl | hm2
        · exact hle
        · exact hall hh hm2

/-- C6 (amended: ties are broken by the LAST occurrence in input order, not
the first — the reduce keeps the right operand on equal fails — and the
none-signals are the fixed sentinel strings below, distinguishable from a
genuine result only as long as no habit bears them as a name): for every
habit list, `get_most_failed_habit` returns \"No habits found.\" on the
empty list, and otherwise the name of a habit with maximal fails whose
later elements all have strictly fewer fails, unless that maximum is 0,
in which case it returns \"No fails were found.\" and never reports a
habit. -/
theorem getMostFailedHabit_spec (l : List Habit) :
    (l = [] → getMostFailedHabit l = "No habits found.") ∧
    (∀ x xs, l = x :: xs →
      ∃ M l1 l2, l = l1 ++ M :: l2 ∧
        (∀ h ∈ l, h.fails ≤ M.fails) ∧
        (∀ h ∈ l2, h.fails < M.fails) ∧
        getMostFailedHabit l =
          (if 0 < M.fails then M.name else "No fails were found.")) := by
  constructor
  · rintro rfl
    rfl
  · rintro x xs rfl
    obtain ⟨l1, l2, heq, hle, hall, hlast⟩ := foldl_moreFailed_spec xs x
    refine ⟨xs.foldl moreFailed x, l1, l2, heq, ?_, hlast, rfl⟩
    intro hh hmem
    rcases List.mem_cons.mp hmem with rfl | hmem2
    · exact hle
    · exact hall _ hmem2

/-- C6 counterexample: two habits tied at 2 fails; first-occurrence
tie-breaking predicts \"alpha\", but the code's reduce keeps the later
element and returns \"beta\".  The empty-list and all-zero sentinels are
also evaluated. -/
theorem getMostFailedHabit_tie_counterexample :
    getMostFailedHabit [mkHabit "alpha" 1 ⟨2025, 1, 1, 0, 0, 0, 0⟩ 2 0 0,
      mkHabit "beta" 1 ⟨2025, 1, 1, 0, 0, 0, 0⟩ 2 0 0] = "beta" ∧
    (mkHabit "alpha" 1 ⟨2025, 1, 1, 0, 0, 0, 0⟩ 2 0 0).fails =
      (mkHabit "beta" 1 ⟨2025, 1, 1, 0, 0, 0, 0⟩ 2 0 0).fails ∧
    (mkHabit "alpha" 1 ⟨2025, 1, 1, 0, 0, 0, 0⟩ 2 0 0).name = "alpha" ∧
    "beta" ≠ "alpha" ∧
    getMostFailedHabit [] = "No habits found." ∧
    getMostFailedHabit [mkHabit "alpha" 1 ⟨2025, 1, 1, 0, 0, 0, 0⟩ 0 0 0] =
      "No fails were found." :=
  ⟨by rfl, by rfl, by rfl, by decide, by rfl, by rfl⟩

theorem getMostFailedHabit_spec_witness :
    ∃ M l1 l2, ([gymHabit, yogaHabit] : List Habit) = l1 ++ M :: l2 ∧
      (∀ h ∈ ([gymHabit, yogaHabit] : List Habit), h.fails ≤ M.fails) ∧
      (∀ h ∈ l2, h.fails < M.fails) ∧
      getMostFailedHabit [gymHabit, yogaHabit] =
        (if 0 < M.fails then M.name else "No fails were found.") :=
  (getMostFailedHabit_spec [gymHabit, yogaHabit]).2 gymHabit [yogaHabit] rfl

/-- C7: the claim (and the spec's data model and the `exp (int)` docstring)
say `exp` stays a non-negative integer, but the startup deduction uses
Python true division: for a Daily habit (award 1) the per-fail deduction is
1/2, so from the integer EXP 1 one new fail leaves 1/2 — not an integer —
although the 0 floor itself does hold. -/
theorem deduct_exp_fractional_eval :
    deductExpOnce 1 1 = 1 / 2 ∧
    (∀ n : ℤ, deductExpOnce 1 1 ≠ (n : ℚ)) ∧
    (∀ p : Nat, ∀ q : ℚ, 0 ≤ deductExpOnce p q) := by
  have hval : deductExpOnce 1 1 = 1 / 2 := by
    norm_num [deductExpOnce, expValues]
  refine ⟨hval, ?_, fun p q => le_max_right _ _⟩
  intro n hn
  rw [hval] at hn
  have h2 : ((2 * n : ℤ) : ℚ) = 1 := by push_cast; linarith [hn.symm.le, hn.le]
  have h3 : (2 * n : ℤ) = 1 := by exact_mod_cast h2
  omega

theorem check_in_keeps_streak_bound {h h' : Habit} {now : PyDateTime} {b : Bool}
    (hinv : h.streak ≤ h.longest_streak)
    (hok : h.check_in now = .ok (h', b)) : h'.streak ≤ h'.longest_streak := by
  rw [Habit.check_in] at hok
  split_ifs at hok with h1 h2
  · simp only [Except.ok.injEq, Prod.mk.injEq] at hok
    obtain ⟨rfl, rfl⟩ := hok
    exact hinv
  · cases hminc : incrementCompletionDate h.periodicity h.next_completion_date with
    | error e =>
      rw [hminc] at hok
      cases hok
    | ok d1 =>
      rw [hminc] at hok
      dsimp only at hok
      split_ifs at hok with h3 <;>
        simp only [Except.ok.injEq, Prod.mk.injEq] at hok <;>
        obtain ⟨rfl, rfl⟩ := hok <;> dsimp only <;> omega
  · simp only [Except.ok.injEq, Prod.mk.injEq] at hok
    obtain ⟨rfl, rfl⟩ := hok
    exact hinv

theorem calculate_fails_keeps_streak_bound {h h' : Habit} {now : PyDateTime}
    {hv : ValidDate h.next_completion_date} {b : Bool}
    (hinv : h.streak ≤ h.longest_streak)
    (hok : h.calculate_fails now hv = .ok (h', b)) :
    h'.streak ≤ h'.longest_streak := by
  unfold Habit.calculate_fails at hok
  cases hml : calcFailsLoop h.periodicity now h.next_completion_date h.fails false hv with
  | error e =>
    rw [hml] at hok
    cases hok
  | ok v =>
    obtain ⟨ncd1, f1, det1⟩ := v
    rw [hml] at hok
    cases det1 with
    | true =>
      simp only [if_true, Except.ok.injEq, Prod.mk.injEq] at hok
      obtain ⟨rfl, rfl⟩ := hok
      dsimp only
      omega
    | false =>
      simp only [if_false, Except.ok.injEq, Prod.mk.injEq] at hok
      obtain ⟨rfl, rfl⟩ := hok
      exact hinv

/-- C8: for every habit satisfying `longest_streak >= streak`, both
`check_in` and `calculate_fails` preserve `longest_streak >= streak` on
every normal return; hence every habit reachable from a freshly created one
(`streak = fails = longest_streak = 0`) by returning check-ins and
fail-sweeps satisfies `longest_streak >= streak`. -/
theorem streak_bound_invariant :
    (∀ (h : Habit) (now : PyDateTime) (h' : Habit) (b : Bool),
      h.streak ≤ h.longest_streak → h.check_in now = .ok (h', b) →
      h'.streak ≤ h'.longest_streak) ∧
    (∀ (h : Habit) (now : PyDateTime) (hv : ValidDate h.next_completion_date)
      (h' : Habit) (b : Bool),
      h.streak ≤ h.longest_streak → h.calculate_fails now hv = .ok (h', b) →
      h'.streak ≤ h'.longest_streak) ∧
    (∀ h : Habit, ReachableHabit h → h.streak ≤ h.longest_streak) := by
  refine ⟨fun h now h' b hi hok => check_in_keeps_streak_bound hi hok,
    fun h now hv h' b hi hok => calculate_fails_keeps_streak_bound hi hok, ?_⟩
  intro h hr
  induction hr with
  | fresh name p decor ncd => exact le_refl 0
  | stepCheckIn hr hok ih => exact check_in_keeps_streak_bound ih hok
  | stepFails hr hok ih => exact calculate_fails_keeps_streak_bound ih hok

theorem streak_bound_invariant_witness :
    (mkHabit "new" 1 ⟨2025, 1, 1, 0, 0, 0, 0⟩ 0 0 0).streak ≤
      (mkHabit "new" 1 ⟨2025, 1, 1, 0, 0, 0, 0⟩ 0 0 0).longest_streak :=
  streak_bound_invariant.2.2 _
    (ReachableHabit.fresh "new" 1 ⟨"Sofa", "Living Room", "Old", 5⟩
      ⟨2025, 1, 1, 0, 0, 0, 0⟩)

theorem updateState_cases (exp : ℚ) (prev : String) (h0 : 0 ≤ exp) :
    updateState exp prev =
      (if 64 ≤ exp then "Great" else if 32 ≤ exp then "Good"
       else if 16 ≤ exp then "Normal" else "Old") := by
  unfold updateState expStatesDesc
  by_cases h64 : (64:ℚ) ≤ exp <;> by_cases h32 : (32:ℚ) ≤ exp <;>
    by_cases h16 : (16:ℚ) ≤ exp <;>
    simp [List.find?, h64, h32, h16, h0] <;> linarith

theorem stateRank_updateState (exp : ℚ) (prev : String) (h0 : 0 ≤ exp) :
    stateRank (updateState exp prev) =
      (if 64 ≤ exp then 3 else if 32 ≤ exp then 2
       else if 16 ≤ exp then 1 else 0) := by
  rw [updateState_cases exp prev h0]
  split_ifs <;> rfl

/-- C9: for every decoration EXP ≥ 0, `update_state` sets the state to the
label of the highest threshold not exceeding the EXP over the table
`\x7b0 → Old, 16 → Normal, 32 → Good, 64 → Great\x7d`, the resulting state is a
pure function of the EXP (independent of the previous state), and the
mapping is monotone: a larger EXP never yields a lower rank. -/
theorem updateState_table_pure_monotone (exp exp' : ℚ) (prev prev' : String)
    (h0 : 0 ≤ exp) (h0' : 0 ≤ exp') (hle : exp ≤ exp') :
    stateFromTable exp = some (updateState exp prev) ∧
    updateState exp prev = updateState exp prev' ∧
    stateRank (updateState exp prev) ≤ stateRank (updateState exp' prev') := by
  refine ⟨?_, by rw [updateState_cases exp prev h0, updateState_cases exp prev' h0], ?_⟩
  · rw [updateState_cases exp prev h0]
    unfold stateFromTable expStatesAsc
    by_cases h64 : (64:ℚ) ≤ exp <;> by_cases h32 : (32:ℚ) ≤ exp <;>
      by_cases h16 : (16:ℚ) ≤ exp <;>
      simp [List.filter, h64, h32, h16, h0] <;> linarith
  · rw [stateRank_updateState exp prev h0, stateRank_updateState exp' prev' h0']
    split_ifs <;> first | omega | linarith

/-- C3 counterexample: for the Yearly habit `febHabit`, `check_in` at the
exact start-of-day and end-of-day instants of its Feb 29, 2024 deadline
does not succeed — the date advancement raises — refuting the claim's
unconditional boundary-instant success. -/
theorem check_in_boundary_counterexample :
    isOkResult (Habit.check_in febHabit
      (startOfDay febHabit.next_completion_date)) = false ∧
    isOkResult (Habit.check_in febHabit
      (endOfDay febHabit.next_completion_date)) = false :=
  ⟨by rfl, by rfl⟩

theorem check_in_window_witness :
    PyDateTime.ltb ⟨2025, 6, 10, 0, 0, 0, 29⟩
      (startOfDay ciHabit.next_completion_date) = true ∧
    Habit.check_in ciHabit ⟨2025, 6, 10, 0, 0, 0, 29⟩ = .ok (ciHabit, false) :=
  ⟨by decide, (check_in_window ciHabit ⟨2025, 6, 10, 0, 0, 0, 29⟩).1 (by decide)⟩

theorem updateState_table_pure_monotone_witness :
    stateFromTable 15 = some (updateState 15 "Good") ∧
    updateState 15 "Good" = updateState 15 "Old" ∧
    stateRank (updateState 15 "Good") ≤ stateRank (updateState 16 "Old") :=
  updateState_table_pure_monotone 15 16 "Good" "Old" (by norm_num) (by norm_num)
    (by norm_num)

end HabitApp
